import Mathlib

/-!
Verification of the SSE event-distribution subsystem of the dnd-inventory-manager
backend (`backend/app/core/sse.py`).

The Python module is shallowly embedded as pure functions over an explicit
`ConnectionManager` state:

* `asyncio.Queue` mailboxes are identified by allocation order (`Nat`); the map
  `mailboxes` holds each queue's current FIFO contents.  `uuid4` ids of events
  created inside the manager are modelled by the fresh-name counter
  `next_event_id` (uuid freshness, nothing more).
* Each `async` method of `ConnectionManager` runs its whole body while holding
  the topic's lock except the final fan-out loops, which contain no suspension
  points (`Queue.put` on an unbounded queue never awaits), so under asyncio's
  cooperative scheduler every method executes atomically relative to the other
  methods.  Interleaved executions are therefore modelled as sequences of
  atomic `MOp` steps (`run`).
* The defensive `try: await queue.put(event) except Exception: pass` in the
  fan-out loops is modelled by a parameter `F`, the set of dead mailboxes whose
  `put` raises; the loop skips exactly those.  In the step semantics `F = []`,
  since putting to an unbounded `asyncio.Queue` cannot in fact fail.
* The `timestamp` dataclass field of `SSEEvent` is informational only (never
  read by the module), and the SSE wire formatting `format()` is plain string
  interpolation; neither is needed for the properties below, so events are
  modelled by their `event` type tag, their payload and their `id`.
-/

/-- Embeds `HEARTBEAT_INTERVAL = 30` (sse.py line 16). -/
def HEARTBEAT_INTERVAL : Nat := 30

/-- Embeds `self._history_limit = 100` (sse.py line 57); assigned once in
`__init__` and never mutated, hence a constant. -/
def history_limit : Nat := 100

/-- The payload dictionaries actually constructed by the module:
`{"viewers": count}` for connection-count events, `{"timestamp": ...}` for
heartbeats, and arbitrary JSON-serializable payloads of domain events supplied
by producers, which this subsystem treats as opaque. -/
inductive EventData where
  | viewers (n : Nat)
  | timestampData (t : Nat)
  | payload (s : String)
deriving DecidableEq

/-- Embeds the `SSEEvent` dataclass (sse.py lines 19-40): a type tag `event`,
a payload `data`, and a uuid `id`. -/
structure SSEEvent where
  event : String
  data : EventData
  id : String
deriving DecidableEq

/-- The mutable state of the Python `ConnectionManager` (sse.py lines 50-57).
`connections` embeds `self._connections : dict[str, set[Queue]]` (a present
key maps to the list of registered queue ids, in insertion order);
`event_history` embeds `self._event_history : dict[str, list[SSEEvent]]`;
`mailboxes` holds the contents of every queue ever allocated; `next_queue_id`
is the queue allocator; `next_event_id` is the uuid4 freshness counter for
events the manager itself creates.  The per-slug locks need no explicit state:
see the atomicity discussion in the header. -/
structure ConnectionManager where
  connections : String → Option (List Nat)
  event_history : String → Option (List SSEEvent)
  mailboxes : Nat → List SSEEvent
  next_queue_id : Nat
  next_event_id : Nat

/-- Pointwise update of a string-keyed map, embedding Python dict assignment
(`v = some _`) and deletion (`v = none`). -/
def updMap {α : Type} (f : String → Option α) (k : String) (v : Option α) :
    String → Option α :=
  fun k' => if k' = k then v else f k'

namespace ConnectionManager

/-- The state built by `ConnectionManager.__init__` (sse.py lines 50-57):
both dicts empty, no queues allocated. -/
def init : ConnectionManager where
  connections := fun _ => none
  event_history := fun _ => none
  mailboxes := fun _ => []
  next_queue_id := 0
  next_event_id := 0

/-- Embeds `get_connection_count` (sse.py lines 108-119):
`len(self._connections.get(slug, set()))`. -/
def get_connection_count (s : ConnectionManager) (slug : String) : Nat :=
  ((s.connections slug).getD []).length

/-- The fan-out loop `for queue in connections: try: await queue.put(event)
except Exception: pass` (sse.py lines 141-146 and 165-169): every snapshotted
queue outside the dead set `F` gets the event appended; a dead queue's failure
is swallowed and the loop continues. -/
def putAll (F : List Nat) (mbs : Nat → List SSEEvent) (conns : List Nat)
    (e : SSEEvent) : Nat → List SSEEvent :=
  fun q => if q ∈ conns ∧ q ∉ F then mbs q ++ [e] else mbs q

/-- Embeds `_broadcast_connection_count` (sse.py lines 148-169): read the
current count, build a `connection_count` event with a fresh uuid, snapshot
the subscriber set under the lock, then deliver to every snapshotted queue
without storing anything in the history. -/
def broadcast_connection_count (F : List Nat) (s : ConnectionManager)
    (slug : String) : ConnectionManager :=
  let count := s.get_connection_count slug
  let e : SSEEvent := ⟨"connection_count", EventData.viewers count,
    toString s.next_event_id⟩
  let conns := (s.connections slug).getD []
  { s with mailboxes := putAll F s.mailboxes conns e,
           next_event_id := s.next_event_id + 1 }

/-- Embeds `connect` (sse.py lines 66-87).  Under the topic lock: if the slug
is not a key of `_connections`, install an empty subscriber set *and assign
`self._event_history[slug] = []`* (line 79 — note this overwrites any retained
history); allocate a fresh queue and `add` it to the set.  After releasing the
lock, broadcast the updated connection count.  Returns the new queue's id and
the new state. -/
def connect (F : List Nat) (s : ConnectionManager) (slug : String) :
    Nat × ConnectionManager :=
  let s1 := if (s.connections slug).isSome then s else
    { s with connections := updMap s.connections slug (some []),
             event_history := updMap s.event_history slug (some []) }
  let q := s1.next_queue_id
  let conns := (s1.connections slug).getD []
  let conns' := if q ∈ conns then conns else conns ++ [q]
  let s2 := { s1 with connections := updMap s1.connections slug (some conns'),
                      next_queue_id := q + 1 }
  (q, broadcast_connection_count F s2 slug)

/-- Embeds `disconnect` (sse.py lines 89-106).  Under the topic lock: if the
slug is registered, `discard` the queue from its set; if the set became empty,
delete the slug's `_connections` entry while keeping its event history.  After
releasing the lock, broadcast the updated connection count. -/
def disconnect (F : List Nat) (s : ConnectionManager) (slug : String)
    (q : Nat) : ConnectionManager :=
  let s1 := match s.connections slug with
    | none => s
    | some l =>
      let l' := l.filter (fun x => x != q)
      if l'.isEmpty then
        { s with connections := updMap s.connections slug none }
      else
        { s with connections := updMap s.connections slug (some l') }
  broadcast_connection_count F s1 slug

/-- Embeds `broadcast` (sse.py lines 121-146).  Under the topic lock: append
the event to the slug's history (creating the entry if absent), trim the
history to the last `history_limit` entries when it exceeds the limit
(`history[-self._history_limit:]`), and snapshot the subscriber set.  After
releasing the lock, deliver the event to every snapshotted mailbox, swallowing
individual failures. -/
def broadcast (F : List Nat) (s : ConnectionManager) (slug : String)
    (e : SSEEvent) : ConnectionManager :=
  let hist1 := (s.event_history slug).getD [] ++ [e]
  let hist2 := if hist1.length > history_limit then
      hist1.drop (hist1.length - history_limit)
    else hist1
  let conns := (s.connections slug).getD []
  { s with event_history := updMap s.event_history slug (some hist2),
           mailboxes := putAll F s.mailboxes conns e }

/-- Embeds `get_missed_events` (sse.py lines 171-202): `None` or empty
`last_event_id` yields no replay; otherwise linearly scan the slug's history
for the first event with that id (`found_index`) and return everything
strictly after it, or nothing when the id is absent (too old). -/
def get_missed_events (s : ConnectionManager) (slug : String)
    (last_event_id : Option String) : List SSEEvent :=
  match last_event_id with
  | none => []
  | some lid =>
    if lid = "" then []
    else
      let history := (s.event_history slug).getD []
      match history.findIdx? (fun e => e.id == lid) with
      | none => []
      | some i => history.drop (i + 1)

/-- The REPLAYING and SNAPSHOT phases of `event_generator` (sse.py lines
225-236): first yield every missed event in order, then yield one
`connection_count` snapshot event (freshly created, never stored). -/
def event_generator_start (s : ConnectionManager) (slug : String)
    (last_event_id : Option String) (cc_id : String) : List SSEEvent :=
  s.get_missed_events slug last_event_id ++
    [⟨"connection_count", EventData.viewers (s.get_connection_count slug),
      cc_id⟩]

end ConnectionManager

/-- One iteration of the LIVE loop of `event_generator` (sse.py lines
240-259), as a function of the `last_heartbeat` value, the time the wait on
the mailbox began, and the outcome of `asyncio.wait_for(queue.get(),
timeout=HEARTBEAT_INTERVAL)`: `some (t, e)` means event `e` was dequeued at
time `t` (within the window), `none` means `TimeoutError` fired at
`wait_start + HEARTBEAT_INTERVAL`.  Returns the yielded events of the
iteration and the new `last_heartbeat`.  `hb_id` is the fresh uuid of a
heartbeat created in this iteration. -/
def event_generator_live_step (last_heartbeat wait_start : Nat)
    (arrival : Option (Nat × SSEEvent)) (hb_id : String) :
    List SSEEvent × Nat :=
  match arrival with
  | some (t_arrive, e) => ([e], t_arrive)
  | none =>
    let now := wait_start + HEARTBEAT_INTERVAL
    if HEARTBEAT_INTERVAL ≤ now - last_heartbeat then
      ([⟨"heartbeat", EventData.timestampData now, hb_id⟩], now)
    else ([], last_heartbeat)

/-- The atomic operations of the manager's interleaving semantics (see the
header for why each method is one atomic step). -/
inductive MOp where
  | connectOp (slug : String)
  | disconnectOp (slug : String) (q : Nat)
  | broadcastOp (slug : String) (e : SSEEvent)
deriving DecidableEq

/-- Apply one atomic operation (with `F = []`: real unbounded-queue puts do
not fail). -/
def step (s : ConnectionManager) (op : MOp) : ConnectionManager :=
  match op with
  | .connectOp slug => (ConnectionManager.connect [] s slug).2
  | .disconnectOp slug q => ConnectionManager.disconnect [] s slug q
  | .broadcastOp slug e => ConnectionManager.broadcast [] s slug e

/-- Run a sequence of atomic operations. -/
def run (s : ConnectionManager) (ops : List MOp) : ConnectionManager :=
  ops.foldl step s

/-- The observable subscriber set of a slug (empty when the slug is unknown,
matching `self._connections.get(slug, set())`). -/
def subscribersOf (s : ConnectionManager) (slug : String) : List Nat :=
  (s.connections slug).getD []

/-- The observable replay buffer of a slug (empty when the slug is unknown,
matching `self._event_history.get(slug, [])`). -/
def histOf (s : ConnectionManager) (slug : String) : List SSEEvent :=
  (s.event_history slug).getD []

/-- The last `n` elements of a list: what `l[-n:]` computes in Python. -/
def lastN {α : Type} (n : Nat) (l : List α) : List α :=
  l.drop (l.length - n)

/-- An operation a producer may issue according to the external-interface
contract (spec §6): producers broadcast only domain events, never the
manager-internal `connection_count` or `heartbeat` types. -/
def domainOp (op : MOp) : Prop :=
  match op with
  | .broadcastOp _ e => e.event ≠ "connection_count" ∧ e.event ≠ "heartbeat"
  | _ => True

instance : DecidablePred domainOp := by
  intro op
  unfold domainOp
  cases op <;> infer_instance

/-- Concrete domain event used in counterexample states. -/
def ev0 : SSEEvent := ⟨"item_added", EventData.payload "Torch", "ev-0"⟩

/-- Second concrete domain event. -/
def ev1 : SSEEvent := ⟨"item_updated", EventData.payload "Torch+1", "ev-1"⟩

/-! ### Generic list lemmas -/

theorem lastN_eq_reverse_take {α : Type} (n : Nat) (l : List α) :
    lastN n l = (l.reverse.take n).reverse := by
  unfold lastN
  rw [List.take_reverse, List.reverse_reverse]

theorem take_append_take {α : Type} (n : Nat) (b c : List α) :
    (b ++ c.take n).take n = (b ++ c).take n := by
  rw [List.take_append_eq_append_take, List.take_append_eq_append_take,
    List.take_take, Nat.min_eq_left (Nat.sub_le n b.length)]

theorem lastN_append_lastN {α : Type} (n : Nat) (l y : List α) :
    lastN n (lastN n l ++ y) = lastN n (l ++ y) := by
  simp only [lastN_eq_reverse_take, List.reverse_append, List.reverse_reverse]
  rw [take_append_take]

theorem lastN_length_le {α : Type} (n : Nat) (l : List α) :
    (lastN n l).length ≤ n := by
  simp only [lastN, List.length_drop]
  omega

theorem lastN_of_length_le {α : Type} {n : Nat} {l : List α}
    (h : l.length ≤ n) : lastN n l = l := by
  unfold lastN
  rw [Nat.sub_eq_zero_of_le h, List.drop_zero]

theorem findIdx?_eq_some_of_first {α : Type} (p : α → Bool) (l : List α)
    (i : Nat) (hi : i < l.length) (hp : p (l.get ⟨i, hi⟩) = true)
    (hmin : ∀ (k : Nat) (hk : k < i), p (l.get ⟨k, Nat.lt_trans hk hi⟩) = false) :
    l.findIdx? p = some i := by
  induction l generalizing i with
  | nil => exact absurd hi (by simp)
  | cons a l ih =>
    cases i with
    | zero =>
      simp only [List.get] at hp
      simp [List.findIdx?_cons, hp]
    | succ j =>
      have ha : p a = false := hmin 0 (Nat.succ_pos j)
      have hj : j < l.length := Nat.lt_of_succ_lt_succ hi
      have hpj : p (l.get ⟨j, hj⟩) = true := hp
      have hminj : ∀ (k : Nat) (hk : k < j),
          p (l.get ⟨k, Nat.lt_trans hk hj⟩) = false := by
        intro k hk
        exact hmin (k + 1) (Nat.succ_lt_succ hk)
      have := ih j hj hpj hminj
      simp [List.findIdx?_cons, ha, List.findIdx?_succ, this]

/-! ### Claim C2 -/

/-- Claim C2: `get_missed_events` returns nothing for an absent or empty
`last_event_id`, returns nothing when no buffered event carries the id, and
otherwise returns exactly the events strictly after the first matching event,
in recorded order (so the empty list when the id belongs to the most recent
event, since `drop (i+1)` of a list of length `i+1` is empty). -/
theorem get_missed_events_spec (s : ConnectionManager) (slug : String) :
    ConnectionManager.get_missed_events s slug none = [] ∧
    ConnectionManager.get_missed_events s slug (some "") = [] ∧
    (∀ lid : String,
      (∀ e ∈ histOf s slug, e.id ≠ lid) →
      ConnectionManager.get_missed_events s slug (some lid) = []) ∧
    (∀ (lid : String) (i : Nat) (hi : i < (histOf s slug).length),
      lid ≠ "" →
      ((histOf s slug).get ⟨i, hi⟩).id = lid →
      (∀ (k : Nat) (hk : k < i), ((histOf s slug).get ⟨k, Nat.lt_trans hk hi⟩).id ≠ lid) →
      ConnectionManager.get_missed_events s slug (some lid) =
        (histOf s slug).drop (i + 1)) := by
  refine ⟨rfl, rfl, ?_, ?_⟩
  · intro lid h
    by_cases hl : lid = ""
    · simp [ConnectionManager.get_missed_events, hl]
    · have hn : ((s.event_history slug).getD []).findIdx?
          (fun e => e.id == lid) = none := by
        rw [List.findIdx?_eq_none_iff]
        intro x hx
        simpa using h x hx
      simp [ConnectionManager.get_missed_events, hl, hn]
  · intro lid i hi hne hid hfirst
    have hfi : ((s.event_history slug).getD []).findIdx?
        (fun e => e.id == lid) = some i := by
      refine findIdx?_eq_some_of_first _ _ i hi (by simpa using hid) ?_
      intro k hk
      simpa using hfirst k hk
    simp [ConnectionManager.get_missed_events, hne, hfi, histOf]

/-- Witness for C2: a concrete two-event history, replaying after the first
event returns exactly the second. -/
theorem get_missed_events_spec_witness :
    ConnectionManager.get_missed_events
      (ConnectionManager.broadcast []
        (ConnectionManager.broadcast [] ConnectionManager.init "party" ev0)
        "party" ev1)
      "party" (some "ev-0") = [ev1] := by
  have h := (get_missed_events_spec
    (ConnectionManager.broadcast []
      (ConnectionManager.broadcast [] ConnectionManager.init "party" ev0)
      "party" ev1) "party").2.2.2 "ev-0" 0 (by decide) (by decide) (by decide)
    (by intro k hk; exact absurd hk (Nat.not_lt_zero k))
  simpa using h

/-! ### Claim C9 -/

/-- Claim C9: in the LIVE state, a heartbeat window with no arriving event
yields exactly one heartbeat event (not zero, not more), and the idle timer
(`last_heartbeat`) resets both on the emitted heartbeat and on every
successfully delivered event.  The hypothesis `last_heartbeat ≤ wait_start`
holds on every iteration because the wait begins no earlier than the last
timer reset. -/
theorem heartbeat_exactly_one (lh t : Nat) (hb_id : String) (hlh : lh ≤ t) :
    (event_generator_live_step lh t none hb_id).1 =
      [⟨"heartbeat", EventData.timestampData (t + HEARTBEAT_INTERVAL), hb_id⟩] ∧
    (event_generator_live_step lh t none hb_id).2 = t + HEARTBEAT_INTERVAL ∧
    (∀ (ta : Nat) (e : SSEEvent),
      event_generator_live_step lh t (some (ta, e)) hb_id = ([e], ta)) := by
  have h30 : HEARTBEAT_INTERVAL ≤ t + HEARTBEAT_INTERVAL - lh := by
    unfold HEARTBEAT_INTERVAL
    omega
  refine ⟨?_, ?_, ?_⟩
  · simp [event_generator_live_step, h30]
  · simp [event_generator_live_step, h30]
  · intro ta e
    rfl

/-- Witness for C9 at `last_heartbeat = 0`, `wait_start = 0`. -/
theorem heartbeat_exactly_one_witness :
    (0 : Nat) ≤ 0 ∧
    ((event_generator_live_step 0 0 none "hb").1 =
      [⟨"heartbeat", EventData.timestampData (0 + HEARTBEAT_INTERVAL), "hb"⟩] ∧
    (event_generator_live_step 0 0 none "hb").2 = 0 + HEARTBEAT_INTERVAL ∧
    (∀ (ta : Nat) (e : SSEEvent),
      event_generator_live_step 0 0 (some (ta, e)) "hb" = ([e], ta))) :=
  ⟨Nat.le_refl 0, heartbeat_exactly_one 0 0 "hb" (Nat.le_refl 0)⟩

/-! ### History lemmas for `broadcast` -/

theorem histOf_init (slug : String) : histOf ConnectionManager.init slug = [] := rfl

theorem histOf_broadcast (F : List Nat) (s : ConnectionManager) (slug : String)
    (e : SSEEvent) :
    histOf (ConnectionManager.broadcast F s slug e) slug =
      lastN history_limit (histOf s slug ++ [e]) := by
  simp only [ConnectionManager.broadcast, histOf, updMap, if_pos, Option.getD_some]
  split
  · rfl
  · rw [lastN_of_length_le (by omega)]

theorem run_cons (s : ConnectionManager) (op : MOp) (ops : List MOp) :
    run s (op :: ops) = run (step s op) ops := rfl

theorem histOf_run_broadcasts (slug : String) (es : List SSEEvent)
    (s : ConnectionManager) (h : (histOf s slug).length ≤ history_limit) :
    histOf (run s (es.map (MOp.broadcastOp slug))) slug =
      lastN history_limit (histOf s slug ++ es) := by
  induction es generalizing s with
  | nil =>
    show histOf s slug = _
    rw [List.append_nil, lastN_of_length_le h]
  | cons e es ih =>
    rw [List.map_cons, run_cons]
    have hstep : step s (MOp.broadcastOp slug e) =
        ConnectionManager.broadcast [] s slug e := rfl
    rw [ih _ (by rw [hstep, histOf_broadcast]; exact lastN_length_le _ _),
      hstep, histOf_broadcast, lastN_append_lastN]
    simp [List.append_assoc]

/-- First events are distinct whenever the list of ids has no duplicates. -/
theorem id_ne_of_ne {es : List SSEEvent} (hnd : (es.map SSEEvent.id).Nodup)
    {i j : Nat} (hi : i < es.length) (hj : j < es.length) (hij : i ≠ j) :
    (es.get ⟨i, hi⟩).id ≠ (es.get ⟨j, hj⟩).id := by
  intro h
  have hi' : i < (es.map SSEEvent.id).length := by simpa using hi
  have hj' : j < (es.map SSEEvent.id).length := by simpa using hj
  have hmap : (es.map SSEEvent.id).get ⟨i, hi'⟩ =
      (es.map SSEEvent.id).get ⟨j, hj'⟩ := by
    simpa [List.get_eq_getElem, List.getElem_map] using h
  have := hnd.get_inj_iff.mp hmap
  exact hij (by simpa using congrArg Fin.val this)

theorem gme_of_findIdx_none (s : ConnectionManager) (slug lid : String)
    (hne : lid ≠ "")
    (h : (histOf s slug).findIdx? (fun e => e.id == lid) = none) :
    ConnectionManager.get_missed_events s slug (some lid) = [] := by
  unfold histOf at h
  simp only [ConnectionManager.get_missed_events, if_neg hne]
  rw [h]

theorem gme_of_findIdx_some (s : ConnectionManager) (slug lid : String)
    (i : Nat) (hne : lid ≠ "")
    (h : (histOf s slug).findIdx? (fun e => e.id == lid) = some i) :
    ConnectionManager.get_missed_events s slug (some lid) =
      (histOf s slug).drop (i + 1) := by
  unfold histOf at h ⊢
  simp only [ConnectionManager.get_missed_events, if_neg hne]
  rw [h]

/-! ### Claim C3 -/

/-- Claim C3: the replay buffer of a topic is bounded by 100 events, keeps
insertion order, and evicts oldest-first.  After broadcasting the events `es`
(with distinct uuid ids, as `uuid4` guarantees) to a fresh topic, the buffer
is exactly `es.drop (es.length - 100)`, i.e. the last 100 events in publish
order (all of `es` when at most 100 were published); its length never exceeds
100; `since` of an evicted event's id returns the empty sequence; and `since`
of a still-buffered event's id returns all the later events, in order. -/
theorem replay_buffer_bounded_fifo (slug : String) (es : List SSEEvent)
    (hnd : (es.map SSEEvent.id).Nodup) :
    histOf (run ConnectionManager.init (es.map (MOp.broadcastOp slug))) slug =
      es.drop (es.length - history_limit) ∧
    (histOf (run ConnectionManager.init (es.map (MOp.broadcastOp slug))) slug).length
      ≤ history_limit ∧
    (∀ (i : Nat) (hi : i < es.length), i < es.length - history_limit →
      ConnectionManager.get_missed_events
        (run ConnectionManager.init (es.map (MOp.broadcastOp slug))) slug
        (some ((es.get ⟨i, hi⟩).id)) = []) ∧
    (∀ (i : Nat) (hi : i < es.length), es.length - history_limit ≤ i →
      (es.get ⟨i, hi⟩).id ≠ "" →
      ConnectionManager.get_missed_events
        (run ConnectionManager.init (es.map (MOp.broadcastOp slug))) slug
        (some ((es.get ⟨i, hi⟩).id)) = es.drop (i + 1)) := by
  have hrun : histOf (run ConnectionManager.init (es.map (MOp.broadcastOp slug))) slug
      = es.drop (es.length - history_limit) := by
    rw [histOf_run_broadcasts slug es ConnectionManager.init
      (by rw [histOf_init]; exact Nat.zero_le _), histOf_init]
    rfl
  refine ⟨hrun, ?_, ?_, ?_⟩
  · rw [hrun]
    show (lastN history_limit es).length ≤ history_limit
    exact lastN_length_le _ _
  · -- evicted events are not found
    intro i hi hlt
    by_cases hid0 : (es.get ⟨i, hi⟩).id = ""
    · simp only [List.get_eq_getElem] at hid0
      simp [ConnectionManager.get_missed_events, hid0]
    · refine gme_of_findIdx_none _ _ _ hid0 ?_
      rw [List.findIdx?_eq_none_iff]
      intro x hx
      rw [hrun] at hx
      obtain ⟨k, hk, hxe⟩ := List.mem_iff_getElem.mp hx
      have hdk : es.length - history_limit + k < es.length := by
        rw [List.length_drop] at hk
        omega
      have hxget : x = es.get ⟨es.length - history_limit + k, hdk⟩ := by
        rw [← hxe]
        simp [List.get_eq_getElem, List.getElem_drop]
      have hne2 : (es.get ⟨es.length - history_limit + k, hdk⟩).id ≠
          (es.get ⟨i, hi⟩).id :=
        id_ne_of_ne hnd hdk hi (by omega)
      rw [hxget]
      simpa using hne2
  · -- still-buffered events replay their suffix
    intro i hi hge hid0
    have hd : es.length - history_limit ≤ i := hge
    have hp : i - (es.length - history_limit) <
        (es.drop (es.length - history_limit)).length := by
      rw [List.length_drop]
      omega
    have hfind : (histOf (run ConnectionManager.init
        (es.map (MOp.broadcastOp slug))) slug).findIdx?
          (fun e => e.id == (es.get ⟨i, hi⟩).id)
        = some (i - (es.length - history_limit)) := by
      rw [hrun]
      refine findIdx?_eq_some_of_first _ _ _ hp ?_ ?_
      · have : (es.drop (es.length - history_limit)).get
            ⟨i - (es.length - history_limit), hp⟩ = es.get ⟨i, hi⟩ := by
          simp only [List.get_eq_getElem, List.getElem_drop]
          congr 1
          omega
        rw [this]
        simp
      · intro k hk
        have hdk : es.length - history_limit + k < es.length := by omega
        have : (es.drop (es.length - history_limit)).get
            ⟨k, Nat.lt_trans hk hp⟩ =
            es.get ⟨es.length - history_limit + k, hdk⟩ := by
          simp only [List.get_eq_getElem, List.getElem_drop]
        rw [this]
        have hne2 : (es.get ⟨es.length - history_limit + k, hdk⟩).id ≠
            (es.get ⟨i, hi⟩).id :=
          id_ne_of_ne hnd hdk hi (by omega)
        simpa using hne2
    rw [gme_of_findIdx_some _ _ _ _ hid0 hfind, hrun, List.drop_drop]
    congr 1
    omega

/-- Witness for C3 on a concrete two-event publish sequence with distinct
ids. -/
theorem replay_buffer_bounded_fifo_witness :
    ([ev0, ev1].map SSEEvent.id).Nodup ∧
    (histOf (run ConnectionManager.init
        ([ev0, ev1].map (MOp.broadcastOp "party"))) "party" =
      [ev0, ev1].drop ([ev0, ev1].length - history_limit) ∧
    (histOf (run ConnectionManager.init
        ([ev0, ev1].map (MOp.broadcastOp "party"))) "party").length
      ≤ history_limit ∧
    (∀ (i : Nat) (hi : i < [ev0, ev1].length),
      i < [ev0, ev1].length - history_limit →
      ConnectionManager.get_missed_events
        (run ConnectionManager.init ([ev0, ev1].map (MOp.broadcastOp "party")))
        "party" (some (([ev0, ev1].get ⟨i, hi⟩).id)) = []) ∧
    (∀ (i : Nat) (hi : i < [ev0, ev1].length),
      [ev0, ev1].length - history_limit ≤ i →
      ([ev0, ev1].get ⟨i, hi⟩).id ≠ "" →
      ConnectionManager.get_missed_events
        (run ConnectionManager.init ([ev0, ev1].map (MOp.broadcastOp "party")))
        "party" (some (([ev0, ev1].get ⟨i, hi⟩).id)) =
        [ev0, ev1].drop (i + 1))) :=
  ⟨by decide, replay_buffer_bounded_fifo "party" [ev0, ev1] (by decide)⟩

/-! ### Claim C1 -/

/-- Claim C1 is violated by the code: after the last subscription is removed
by `disconnect`, the topic's replay buffer is indeed retained (first
conjunct), but a subsequent `connect` finds the slug absent from
`_connections` and executes `self._event_history[slug] = []` (sse.py line
79), wiping the retained buffer (second conjunct); a late reconnect
presenting the previously recorded id `"ev-0"` can then replay nothing
(third conjunct), contradicting the retention the spec and the code's own
comment (`# Keep event history for potential reconnections`) promise. -/
theorem connect_resets_retained_history :
    histOf (run ConnectionManager.init
      [MOp.connectOp "party", MOp.broadcastOp "party" ev0,
       MOp.disconnectOp "party" 0]) "party" = [ev0] ∧
    histOf (run ConnectionManager.init
      [MOp.connectOp "party", MOp.broadcastOp "party" ev0,
       MOp.disconnectOp "party" 0, MOp.connectOp "party"]) "party" = [] ∧
    ConnectionManager.get_missed_events
      (run ConnectionManager.init
        [MOp.connectOp "party", MOp.broadcastOp "party" ev0,
         MOp.disconnectOp "party" 0, MOp.connectOp "party"]) "party"
      (some "ev-0") = [] := by
  refine ⟨?_, ?_, ?_⟩ <;> rfl

/-! ### Projection lemmas for `connect`, `disconnect`,
`broadcast_connection_count` -/

theorem bcc_connections (F : List Nat) (s : ConnectionManager) (slug : String) :
    (ConnectionManager.broadcast_connection_count F s slug).connections =
      s.connections := rfl

theorem bcc_event_history (F : List Nat) (s : ConnectionManager) (slug : String) :
    (ConnectionManager.broadcast_connection_count F s slug).event_history =
      s.event_history := rfl

theorem bcc_mailboxes (F : List Nat) (s : ConnectionManager) (slug : String) :
    (ConnectionManager.broadcast_connection_count F s slug).mailboxes =
      ConnectionManager.putAll F s.mailboxes ((s.connections slug).getD [])
        ⟨"connection_count", EventData.viewers (s.get_connection_count slug),
          toString s.next_event_id⟩ := rfl

theorem broadcast_connections (F : List Nat) (s : ConnectionManager)
    (slug : String) (e : SSEEvent) :
    (ConnectionManager.broadcast F s slug e).connections = s.connections := rfl

theorem broadcast_mailboxes (F : List Nat) (s : ConnectionManager)
    (slug : String) (e : SSEEvent) :
    (ConnectionManager.broadcast F s slug e).mailboxes =
      ConnectionManager.putAll F s.mailboxes ((s.connections slug).getD []) e := rfl

theorem connect_fst (F : List Nat) (s : ConnectionManager) (slug : String) :
    (ConnectionManager.connect F s slug).1 = s.next_queue_id := by
  unfold ConnectionManager.connect
  split <;> rfl

theorem disconnect_event_history (F : List Nat) (s : ConnectionManager)
    (slug : String) (q : Nat) :
    (ConnectionManager.disconnect F s slug q).event_history =
      s.event_history := by
  unfold ConnectionManager.disconnect
  cases s.connections slug with
  | none => rfl
  | some l =>
    by_cases he : (l.filter (fun x => x != q)).isEmpty <;> simp [he] <;> rfl

theorem disconnect_connections (F : List Nat) (s : ConnectionManager)
    (slug : String) (q : Nat) :
    (ConnectionManager.disconnect F s slug q).connections =
      match s.connections slug with
      | none => s.connections
      | some l =>
        if (l.filter (fun x => x != q)).isEmpty then
          updMap s.connections slug none
        else
          updMap s.connections slug (some (l.filter (fun x => x != q))) := by
  unfold ConnectionManager.disconnect
  cases s.connections slug with
  | none => rfl
  | some l =>
    by_cases he : (l.filter (fun x => x != q)).isEmpty <;> simp [he] <;> rfl

theorem connect_subscribers (F : List Nat) (s : ConnectionManager)
    (slug : String)
    (hfresh : ∀ x ∈ subscribersOf s slug, x < s.next_queue_id) :
    subscribersOf (ConnectionManager.connect F s slug).2 slug =
      subscribersOf s slug ++ [s.next_queue_id] := by
  have hnm : s.next_queue_id ∉ subscribersOf s slug := by
    intro h
    exact absurd (hfresh _ h) (lt_irrefl _)
  cases hcs : s.connections slug with
  | none =>
    simp [ConnectionManager.connect, subscribersOf, bcc_connections, updMap,
      hcs]
  | some l =>
    have hql : s.next_queue_id ∉ l := by
      simpa [subscribersOf, hcs] using hnm
    simp [ConnectionManager.connect, subscribersOf, bcc_connections, updMap,
      hcs, hql]

theorem connect_subscribers_other (F : List Nat) (s : ConnectionManager)
    (slug T : String) (hT : T ≠ slug) :
    subscribersOf (ConnectionManager.connect F s slug).2 T =
      subscribersOf s T := by
  cases hcs : s.connections slug <;>
    simp [ConnectionManager.connect, subscribersOf, bcc_connections, updMap,
      hcs, hT]

theorem length_filter_bne {l : List Nat} {q : Nat} (hnd : l.Nodup)
    (hq : q ∈ l) :
    (l.filter (fun x => x != q)).length = l.length - 1 := by
  induction l with
  | nil => cases hq
  | cons a l ih =>
    have hnda : a ∉ l := (List.nodup_cons.mp hnd).1
    have hndl : l.Nodup := (List.nodup_cons.mp hnd).2
    by_cases hqa : a = q
    · have hql : q ∉ l := hqa ▸ hnda
      have hfa : (a != q) = false := by simp [hqa]
      rw [List.filter_cons, hfa]
      simp only [Bool.false_eq_true, if_false]
      rw [List.filter_eq_self.mpr]
      · simp
      · intro x hx
        simp only [bne_iff_ne, ne_eq, decide_eq_true_eq]
        intro hxq
        exact hql (hxq ▸ hx)
    · have hmem : q ∈ l := by
        rcases List.mem_cons.mp hq with h | h
        · exact absurd h.symm hqa
        · exact h
      have ihl := ih hndl hmem
      have hlen : 1 ≤ l.length := List.length_pos.mpr (List.ne_nil_of_mem hmem)
      have hba : (a != q) = true := by simp [hqa]
      rw [List.filter_cons, hba]
      simp only [if_true, List.length_cons, ihl]
      omega

/-! ### Claim C5 -/

/-- Claim C5: `connect` hands out a mailbox that was never registered under
any topic (queue allocation is fresh) and raises the topic's connection count
by exactly one; `disconnect` of a registered subscription lowers it by exactly
one; the count is a natural number (never negative) and is `0` for an unknown
topic.  The hypotheses — registered ids are below the allocator and the
subscriber list of a topic has no duplicates — are the allocator invariants,
which hold in every reachable state because queues are handed out in
increasing order and a set never holds duplicates. -/
theorem connect_disconnect_count (s : ConnectionManager) (slug : String)
    (hfresh : ∀ T, ∀ x ∈ subscribersOf s T, x < s.next_queue_id)
    (hnd : (subscribersOf s slug).Nodup) :
    (∀ T, (ConnectionManager.connect [] s slug).1 ∉ subscribersOf s T) ∧
    ConnectionManager.get_connection_count
        (ConnectionManager.connect [] s slug).2 slug =
      ConnectionManager.get_connection_count s slug + 1 ∧
    (∀ q ∈ subscribersOf s slug,
      ConnectionManager.get_connection_count
          (ConnectionManager.disconnect [] s slug q) slug =
        ConnectionManager.get_connection_count s slug - 1) ∧
    (s.connections slug = none →
      ConnectionManager.get_connection_count s slug = 0) := by
  refine ⟨?_, ?_, ?_, ?_⟩
  · rw [connect_fst]
    intro T h
    exact absurd (hfresh T _ h) (lt_irrefl _)
  · show (subscribersOf (ConnectionManager.connect [] s slug).2 slug).length =
      (subscribersOf s slug).length + 1
    rw [connect_subscribers [] s slug (hfresh slug)]
    simp
  · intro q hq
    obtain ⟨l, hcs⟩ : ∃ l, s.connections slug = some l := by
      cases hcs : s.connections slug with
      | none =>
        rw [subscribersOf, hcs] at hq
        cases hq
      | some l => exact ⟨l, rfl⟩
    have hql : q ∈ l := by
      simpa [subscribersOf, hcs] using hq
    have hndl : l.Nodup := by
      simpa [subscribersOf, hcs] using hnd
    have hflen : (l.filter (fun x => x != q)).length = l.length - 1 :=
      length_filter_bne hndl hql
    have hcount : ConnectionManager.get_connection_count
        (ConnectionManager.disconnect [] s slug q) slug =
        (l.filter (fun x => x != q)).length := by
      show (((ConnectionManager.disconnect [] s slug q).connections
        slug).getD []).length = _
      rw [disconnect_connections, hcs]
      by_cases he : (l.filter (fun x => x != q)).isEmpty
      · have h0 : l.filter (fun x => x != q) = [] := List.isEmpty_iff.mp he
        simp [he, updMap, h0]
      · simp [he, updMap]
    rw [hcount, hflen]
    simp [ConnectionManager.get_connection_count, hcs]
  · intro h
    simp [ConnectionManager.get_connection_count, h]

/-- Witness for C5 at the freshly initialised manager. -/
theorem connect_disconnect_count_witness :
    (∀ T, ∀ x ∈ subscribersOf ConnectionManager.init T,
      x < ConnectionManager.init.next_queue_id) ∧
    (subscribersOf ConnectionManager.init "party").Nodup ∧
    ((∀ T, (ConnectionManager.connect [] ConnectionManager.init "party").1 ∉
      subscribersOf ConnectionManager.init T) ∧
    ConnectionManager.get_connection_count
        (ConnectionManager.connect [] ConnectionManager.init "party").2
        "party" =
      ConnectionManager.get_connection_count ConnectionManager.init "party"
        + 1 ∧
    (∀ q ∈ subscribersOf ConnectionManager.init "party",
      ConnectionManager.get_connection_count
          (ConnectionManager.disconnect [] ConnectionManager.init "party" q)
          "party" =
        ConnectionManager.get_connection_count ConnectionManager.init "party"
          - 1) ∧
    (ConnectionManager.init.connections "party" = none →
      ConnectionManager.get_connection_count ConnectionManager.init "party"
        = 0)) :=
  ⟨fun _T x hx => absurd hx (List.not_mem_nil x),
   List.nodup_nil,
   connect_disconnect_count ConnectionManager.init "party"
     (fun _T x hx => absurd hx (List.not_mem_nil x)) List.nodup_nil⟩

/-! ### Claim C6 -/

/-- Claim C6: `disconnect` is total (a pure function here, mirroring that the
Python code cannot raise: `discard` is the non-throwing removal) and
idempotent: disconnecting a queue that is not (or no longer) registered under
the topic leaves the observable subscriber set of every topic and every
topic's connection count unchanged.  Applied twice with the same queue, the
second call satisfies the hypothesis because the first removed it. -/
theorem disconnect_idempotent (s : ConnectionManager) (slug : String) (q : Nat)
    (hq : q ∉ subscribersOf s slug) :
    (∀ T, subscribersOf (ConnectionManager.disconnect [] s slug q) T =
      subscribersOf s T) ∧
    (∀ T, ConnectionManager.get_connection_count
        (ConnectionManager.disconnect [] s slug q) T =
      ConnectionManager.get_connection_count s T) := by
  have hsub : ∀ T, subscribersOf (ConnectionManager.disconnect [] s slug q) T
      = subscribersOf s T := by
    intro T
    rw [subscribersOf, disconnect_connections]
    cases hcs : s.connections slug with
    | none => rfl
    | some l =>
      have hql : q ∉ l := by
        simpa [subscribersOf, hcs] using hq
      have hfil : l.filter (fun x => x != q) = l :=
        List.filter_eq_self.mpr (by
          intro a ha
          simp only [bne_iff_ne, ne_eq, decide_eq_true_eq]
          rintro rfl
          exact hql ha)
      by_cases he : l.isEmpty
      · have hl0 : l = [] := List.isEmpty_iff.mp he
        by_cases hT : T = slug <;>
          simp [hfil, he, updMap, subscribersOf, hT, hcs, hl0]
      · by_cases hT : T = slug <;>
          simp [hfil, he, updMap, subscribersOf, hT, hcs]
  refine ⟨hsub, fun T => ?_⟩
  show (subscribersOf (ConnectionManager.disconnect [] s slug q) T).length =
    (subscribersOf s T).length
  rw [hsub]

/-- Witness for C6: disconnecting an unregistered queue id from a one-
subscriber topic. -/
theorem disconnect_idempotent_witness :
    (7 : Nat) ∉ subscribersOf
      (ConnectionManager.connect [] ConnectionManager.init "party").2
      "party" ∧
    ((∀ T, subscribersOf (ConnectionManager.disconnect []
        (ConnectionManager.connect [] ConnectionManager.init "party").2
        "party" 7) T =
      subscribersOf
        (ConnectionManager.connect [] ConnectionManager.init "party").2 T) ∧
    (∀ T, ConnectionManager.get_connection_count
        (ConnectionManager.disconnect []
          (ConnectionManager.connect [] ConnectionManager.init "party").2
          "party" 7) T =
      ConnectionManager.get_connection_count
        (ConnectionManager.connect [] ConnectionManager.init "party").2 T)) :=
  ⟨by decide,
   disconnect_idempotent
     (ConnectionManager.connect [] ConnectionManager.init "party").2
     "party" 7 (by decide)⟩

/-! ### Claim C10 -/

/-- Claim C10: when `connect(topic)` returns (no interleaved operations), the
fresh mailbox it hands back already holds exactly one event: the
`connection_count` broadcast issued at the end of `connect`, whose payload is
the post-connect subscriber count — the new subscriber receives its own
count update in addition to the driver's later snapshot event.  Hypotheses:
registered ids are below the allocator (allocator invariant) and the fresh
queue's mailbox is empty (it was never handed out). -/
theorem connect_delivers_count_to_new_queue (s : ConnectionManager)
    (slug : String)
    (hfresh : ∀ x ∈ subscribersOf s slug, x < s.next_queue_id)
    (hmb : s.mailboxes s.next_queue_id = []) :
    (ConnectionManager.connect [] s slug).2.mailboxes
        (ConnectionManager.connect [] s slug).1 =
      [⟨"connection_count",
        EventData.viewers (ConnectionManager.get_connection_count s slug + 1),
        toString s.next_event_id⟩] := by
  have hnm : s.next_queue_id ∉ subscribersOf s slug := by
    intro h
    exact absurd (hfresh _ h) (lt_irrefl _)
  cases hcs : s.connections slug with
  | none =>
    simp [ConnectionManager.connect, ConnectionManager.broadcast_connection_count,
      ConnectionManager.putAll, ConnectionManager.get_connection_count, updMap,
      hcs, hmb]
  | some l =>
    have hql : s.next_queue_id ∉ l := by
      simpa [subscribersOf, hcs] using hnm
    simp [ConnectionManager.connect, ConnectionManager.broadcast_connection_count,
      ConnectionManager.putAll, ConnectionManager.get_connection_count, updMap,
      hcs, hql, hmb]

/-- Witness for C10 at the freshly initialised manager: the first subscriber's
mailbox holds exactly the `connection_count` event with one viewer. -/
theorem connect_delivers_count_to_new_queue_witness :
    (∀ x ∈ subscribersOf ConnectionManager.init "party",
      x < ConnectionManager.init.next_queue_id) ∧
    ConnectionManager.init.mailboxes ConnectionManager.init.next_queue_id = [] ∧
    (ConnectionManager.connect [] ConnectionManager.init "party").2.mailboxes
        (ConnectionManager.connect [] ConnectionManager.init "party").1 =
      [⟨"connection_count",
        EventData.viewers (ConnectionManager.get_connection_count
          ConnectionManager.init "party" + 1),
        toString ConnectionManager.init.next_event_id⟩] :=
  ⟨fun x hx => absurd hx (List.not_mem_nil x), rfl,
   connect_delivers_count_to_new_queue ConnectionManager.init "party"
     (fun x hx => absurd hx (List.not_mem_nil x)) rfl⟩

/-! ### Claim C7 -/

theorem connect_event_history (F : List Nat) (s : ConnectionManager)
    (slug : String) :
    (ConnectionManager.connect F s slug).2.event_history =
      if (s.connections slug).isSome then s.event_history
      else updMap s.event_history slug (some []) := by
  by_cases hc : (s.connections slug).isSome <;>
    simp [ConnectionManager.connect, bcc_event_history, hc]

/-- Any event found in a history after one atomic step was either already
there or is the event of a `broadcast` step: neither `connect`, `disconnect`
nor `_broadcast_connection_count` ever writes an event into a history. -/
theorem mem_histOf_step (s : ConnectionManager) (op : MOp) (slug : String)
    (e' : SSEEvent) (h : e' ∈ histOf (step s op) slug) :
    e' ∈ histOf s slug ∨ ∃ sl e, op = MOp.broadcastOp sl e ∧ e' = e := by
  cases op with
  | connectOp sl =>
    left
    have hstep : step s (MOp.connectOp sl) =
        (ConnectionManager.connect [] s sl).2 := rfl
    rw [histOf, hstep, connect_event_history] at h
    by_cases hc : (s.connections sl).isSome
    · rw [if_pos hc] at h
      exact h
    · rw [if_neg hc, updMap] at h
      by_cases hsl : slug = sl
      · rw [if_pos hsl] at h
        exact absurd h (List.not_mem_nil e')
      · rw [if_neg hsl] at h
        exact h
  | disconnectOp sl q =>
    left
    have hstep : step s (MOp.disconnectOp sl q) =
        ConnectionManager.disconnect [] s sl q := rfl
    rw [histOf, hstep, disconnect_event_history] at h
    exact h
  | broadcastOp sl e =>
    by_cases hsl : slug = sl
    · subst hsl
      have hstep : step s (MOp.broadcastOp slug e) =
          ConnectionManager.broadcast [] s slug e := rfl
      rw [hstep, histOf_broadcast] at h
      have hmem : e' ∈ histOf s slug ++ [e] := List.mem_of_mem_drop h
      rcases List.mem_append.mp hmem with hl | hr
      · exact Or.inl hl
      · exact Or.inr ⟨slug, e, rfl, (List.mem_singleton.mp hr)⟩
    · left
      have hstep : step s (MOp.broadcastOp sl e) =
          ConnectionManager.broadcast [] s sl e := rfl
      have hne : (ConnectionManager.broadcast [] s sl e).event_history slug =
          s.event_history slug := by
        simp [ConnectionManager.broadcast, updMap, hsl]
      rw [histOf, hstep, hne] at h
      exact h

/-- Claim C7: in every state reachable by the manager's operations — with
producers broadcasting only domain events, per the producer contract of
spec §6 — no `connection_count` or `heartbeat` event is ever stored in any
topic's replay buffer.  The count events of `connect`/`disconnect` and the
driver's snapshot and heartbeat events (`event_generator_start`,
`event_generator_live_step`) are delivered or yielded live only and never
reach the history that `get_missed_events` replays. -/
theorem history_no_transient_events (ops : List MOp)
    (hops : ∀ op ∈ ops, domainOp op) (slug : String) :
    ∀ e ∈ histOf (run ConnectionManager.init ops) slug,
      e.event ≠ "connection_count" ∧ e.event ≠ "heartbeat" := by
  have key : ∀ (l : List MOp) (s : ConnectionManager),
      (∀ op ∈ l, domainOp op) →
      (∀ sl e, e ∈ histOf s sl →
        e.event ≠ "connection_count" ∧ e.event ≠ "heartbeat") →
      ∀ sl e, e ∈ histOf (run s l) sl →
        e.event ≠ "connection_count" ∧ e.event ≠ "heartbeat" := by
    intro l
    induction l with
    | nil => exact fun s _ hs sl e he => hs sl e he
    | cons op l ih =>
      intro s hall hs sl e he
      rw [run_cons] at he
      refine ih (step s op) (fun o ho => hall o (List.mem_cons_of_mem _ ho))
        ?_ sl e he
      intro sl' e' he'
      rcases mem_histOf_step s op sl' e' he' with hmem | ⟨sl2, e2, hop, rfl⟩
      · exact hs sl' e' hmem
      · have hd := hall op (List.mem_cons_self _ _)
        rw [hop] at hd
        exact hd
  intro e he
  exact key ops ConnectionManager.init hops
    (fun sl e' he' => absurd he' (List.not_mem_nil e')) slug e he

/-- Witness for C7 on a concrete connect-then-broadcast trace. -/
theorem history_no_transient_events_witness :
    (∀ op ∈ [MOp.connectOp "party", MOp.broadcastOp "party" ev0],
      domainOp op) ∧
    (∀ e ∈ histOf (run ConnectionManager.init
        [MOp.connectOp "party", MOp.broadcastOp "party" ev0]) "party",
      e.event ≠ "connection_count" ∧ e.event ≠ "heartbeat") :=
  ⟨by decide,
   history_no_transient_events
     [MOp.connectOp "party", MOp.broadcastOp "party" ev0] (by decide) "party"⟩

/-! ### Claim C8 -/

theorem broadcast_delivers (F : List Nat) (s : ConnectionManager)
    (slug : String) (e : SSEEvent) (q : Nat)
    (hq : q ∈ subscribersOf s slug) (hF : q ∉ F) :
    (ConnectionManager.broadcast F s slug e).mailboxes q =
      s.mailboxes q ++ [e] := by
  rw [broadcast_mailboxes]
  unfold ConnectionManager.putAll
  rw [if_pos ⟨hq, hF⟩]

/-- Claim C8: `broadcast` is a total function (the Python method swallows the
only possible per-subscriber failure and so never raises to its caller);
the history append happens unconditionally; a dead mailbox (`q ∈ F`, whose
`put` raises) does not prevent delivery to any other snapshotted mailbox; a
queue not subscribed to the topic is untouched; and broadcasting to a topic
with zero subscribers leaves every mailbox unchanged while still appending
the event to the replay buffer (first conjunct). -/
theorem broadcast_error_isolation (F : List Nat) (s : ConnectionManager)
    (slug : String) (e : SSEEvent) :
    histOf (ConnectionManager.broadcast F s slug e) slug =
      lastN history_limit (histOf s slug ++ [e]) ∧
    (∀ q ∈ subscribersOf s slug, q ∉ F →
      (ConnectionManager.broadcast F s slug e).mailboxes q =
        s.mailboxes q ++ [e]) ∧
    (∀ q, q ∉ subscribersOf s slug →
      (ConnectionManager.broadcast F s slug e).mailboxes q =
        s.mailboxes q) ∧
    (subscribersOf s slug = [] →
      (ConnectionManager.broadcast F s slug e).mailboxes = s.mailboxes) := by
  refine ⟨histOf_broadcast F s slug e, ?_, ?_, ?_⟩
  · intro q hq hF
    exact broadcast_delivers F s slug e q hq hF
  · intro q hq
    rw [broadcast_mailboxes]
    unfold ConnectionManager.putAll
    rw [if_neg (fun hc => hq hc.1)]
  · intro h0
    funext q
    rw [broadcast_mailboxes]
    unfold ConnectionManager.putAll
    have : q ∉ (s.connections slug).getD [] := by
      show q ∉ subscribersOf s slug
      rw [h0]
      exact List.not_mem_nil q
    rw [if_neg (fun hc => this hc.1)]

/-- Witness for C8: with subscribers `0` and `1` and mailbox `1` dead, the
event still reaches mailbox `0`. -/
theorem broadcast_error_isolation_witness :
    (0 : Nat) ∈ subscribersOf
      (ConnectionManager.connect []
        (ConnectionManager.connect [] ConnectionManager.init "party").2
        "party").2 "party" ∧
    (0 : Nat) ∉ [1] ∧
    (ConnectionManager.broadcast [1]
        (ConnectionManager.connect []
          (ConnectionManager.connect [] ConnectionManager.init "party").2
          "party").2 "party" ev0).mailboxes 0 =
      (ConnectionManager.connect []
        (ConnectionManager.connect [] ConnectionManager.init "party").2
        "party").2.mailboxes 0 ++ [ev0] :=
  ⟨by decide, by decide,
   (broadcast_error_isolation [1]
     (ConnectionManager.connect []
       (ConnectionManager.connect [] ConnectionManager.init "party").2
       "party").2 "party" ev0).2.1 0 (by decide) (by decide)⟩

/-! ### Claim C4 -/

theorem putAll_apply (F : List Nat) (mbs : Nat → List SSEEvent)
    (conns : List Nat) (e : SSEEvent) (q : Nat) :
    ∃ ext, ConnectionManager.putAll F mbs conns e q = mbs q ++ ext := by
  unfold ConnectionManager.putAll
  split
  · exact ⟨[e], rfl⟩
  · exact ⟨[], (List.append_nil _).symm⟩

theorem connect_mailboxes (F : List Nat) (s : ConnectionManager)
    (sl : String) :
    ∃ conns cc, (ConnectionManager.connect F s sl).2.mailboxes =
      ConnectionManager.putAll F s.mailboxes conns cc := by
  by_cases hc : (s.connections sl).isSome <;>
    simp [ConnectionManager.connect,
      ConnectionManager.broadcast_connection_count, hc]

theorem disconnect_mailboxes (F : List Nat) (s : ConnectionManager)
    (sl : String) (q' : Nat) :
    ∃ conns cc, (ConnectionManager.disconnect F s sl q').mailboxes =
      ConnectionManager.putAll F s.mailboxes conns cc := by
  unfold ConnectionManager.disconnect
  cases s.connections sl with
  | none => exact ⟨_, _, rfl⟩
  | some l =>
    by_cases he : (l.filter (fun x => x != q')).isEmpty <;>
      simp [ConnectionManager.broadcast_connection_count, he]

/-- Mailboxes are append-only under every manager operation: nothing the
manager does removes or reorders events already enqueued (dequeuing happens
only in the per-connection stream driver). -/
theorem step_mailboxes_append (s : ConnectionManager) (op : MOp) (q : Nat) :
    ∃ ext, (step s op).mailboxes q = s.mailboxes q ++ ext := by
  cases op with
  | connectOp sl =>
    obtain ⟨conns, cc, hm⟩ := connect_mailboxes [] s sl
    have hstep : step s (MOp.connectOp sl) =
        (ConnectionManager.connect [] s sl).2 := rfl
    rw [hstep, hm]
    exact putAll_apply [] s.mailboxes conns cc q
  | disconnectOp sl q' =>
    obtain ⟨conns, cc, hm⟩ := disconnect_mailboxes [] s sl q'
    have hstep : step s (MOp.disconnectOp sl q') =
        ConnectionManager.disconnect [] s sl q' := rfl
    rw [hstep, hm]
    exact putAll_apply [] s.mailboxes conns cc q
  | broadcastOp sl e =>
    have hstep : step s (MOp.broadcastOp sl e) =
        ConnectionManager.broadcast [] s sl e := rfl
    rw [hstep, broadcast_mailboxes]
    exact putAll_apply [] s.mailboxes _ e q

theorem run_mailboxes_append (ops : List MOp) (s : ConnectionManager)
    (q : Nat) :
    ∃ ext, (run s ops).mailboxes q = s.mailboxes q ++ ext := by
  induction ops generalizing s with
  | nil => exact ⟨[], (List.append_nil _).symm⟩
  | cons op ops ih =>
    obtain ⟨ext1, h1⟩ := step_mailboxes_append s op q
    obtain ⟨ext2, h2⟩ := ih (step s op)
    refine ⟨ext1 ++ ext2, ?_⟩
    rw [run_cons, h2, h1, List.append_assoc]

theorem run_append (s : ConnectionManager) (a b : List MOp) :
    run s (a ++ b) = run (run s a) b :=
  List.foldl_append _ _ _ _

/-- Claim C4: per-topic publish order is observed by every subscriber.  If
queue `q` is subscribed to the topic when `e1` is broadcast, then after any
further operations (`ops`, covering arbitrary interleavings of the atomic
manager operations — see the header for why each Python coroutine is one
atomic step under asyncio's cooperative scheduler) during which `q` is still
subscribed when `e2` is broadcast, `q`'s mailbox contains `e1` strictly
before `e2`. -/
theorem broadcast_order_preserved (s : ConnectionManager) (slug : String)
    (e1 e2 : SSEEvent) (q : Nat) (ops : List MOp)
    (h1 : q ∈ subscribersOf s slug)
    (h2 : q ∈ subscribersOf (run (step s (MOp.broadcastOp slug e1)) ops)
      slug) :
    ∃ mid,
      (run (step s (MOp.broadcastOp slug e1))
          (ops ++ [MOp.broadcastOp slug e2])).mailboxes q =
        s.mailboxes q ++ e1 :: (mid ++ [e2]) := by
  have hstep1 : (step s (MOp.broadcastOp slug e1)).mailboxes q =
      s.mailboxes q ++ [e1] :=
    broadcast_delivers [] s slug e1 q h1 (List.not_mem_nil q)
  obtain ⟨mid, hmid⟩ :=
    run_mailboxes_append ops (step s (MOp.broadcastOp slug e1)) q
  have hlast : (run (step s (MOp.broadcastOp slug e1))
      (ops ++ [MOp.broadcastOp slug e2])).mailboxes q =
      (run (step s (MOp.broadcastOp slug e1)) ops).mailboxes q ++ [e2] := by
    rw [run_append]
    exact broadcast_delivers [] _ slug e2 q h2 (List.not_mem_nil q)
  refine ⟨mid, ?_⟩
  rw [hlast, hmid, hstep1]
  simp

/-- Witness for C4: one subscriber, two broadcasts back to back. -/
theorem broadcast_order_preserved_witness :
    (0 : Nat) ∈ subscribersOf
      (ConnectionManager.connect [] ConnectionManager.init "party").2
      "party" ∧
    (0 : Nat) ∈ subscribersOf
      (run (step (ConnectionManager.connect []
          ConnectionManager.init "party").2
        (MOp.broadcastOp "party" ev0)) []) "party" ∧
    ∃ mid,
      (run (step (ConnectionManager.connect []
          ConnectionManager.init "party").2 (MOp.broadcastOp "party" ev0))
          ([] ++ [MOp.broadcastOp "party" ev1])).mailboxes 0 =
        (ConnectionManager.connect []
          ConnectionManager.init "party").2.mailboxes 0 ++
          ev0 :: (mid ++ [ev1]) :=
  ⟨by decide, by decide,
   broadcast_order_preserved
     (ConnectionManager.connect [] ConnectionManager.init "party").2
     "party" ev0 ev1 0 [] (by decide) (by decide)⟩
